import Mathlib

/-!
# Verification of the reckless-vs-stockfish match orchestrator core

Shallow embedding of the Rust sources:
* `src/engine/uci.rs`   — UCI protocol client (`UciEngine`)
* `src/game/result.rs`  — `GameResult`
* `src/game/runner.rs`  — `GameRunner::play_game`
* `src/main.rs`         — `MatchStats`, `run_worker` work-counter loop

Engine subprocesses are modelled by their finite output-line stream (the
end of the list models stream closure, i.e. a read returning zero bytes);
the chess rules crate (shakmaty), an external collaborator, is modelled by
an abstract interface record `ChessApi` whose operations mirror exactly
the calls `play_game` makes.  Rust string primitives (`trim`,
`strip_prefix`, `split_whitespace`) are implemented structurally over the
character list of a string so that all definitions evaluate.
-/

deriving instance DecidableEq for Except

namespace RvS

/-! ## Rust string primitives -/

/-- Rust `str::trim`: remove leading and trailing whitespace. -/
def rustTrim (s : String) : String :=
  ⟨((s.data.dropWhile Char.isWhitespace).reverse.dropWhile Char.isWhitespace).reverse⟩

/-- Rust `str::strip_prefix`: the remainder of `s` after the literal
prefix `p`, when `s` starts with `p`. -/
def stripPrefixQ (p s : String) : Option String :=
  if p.data.isPrefixOf s.data then some ⟨s.data.drop p.data.length⟩ else none

/-- Rust `s.split_whitespace().next()`: the first maximal run of
non-whitespace characters of `s`, if any. -/
def splitWhitespaceNext (s : String) : Option String :=
  match (s.data.dropWhile Char.isWhitespace).takeWhile (fun c => ¬ c.isWhitespace) with
  | [] => none
  | t => some ⟨t⟩

/-! ## Result and error types -/

/-- `GameResult` from `src/game/result.rs`. -/
inductive GameResult where
  | WhiteWins
  | BlackWins
  | Draw
deriving DecidableEq, Repr

/-- `GameResult::is_white_win`. -/
def GameResult.is_white_win : GameResult → Bool
  | .WhiteWins => true
  | _ => false

/-- `GameResult::is_black_win`. -/
def GameResult.is_black_win : GameResult → Bool
  | .BlackWins => true
  | _ => false

/-- `GameResult::is_draw`. -/
def GameResult.is_draw : GameResult → Bool
  | .Draw => true
  | _ => false

/-- Error taxonomy of the engine protocol client, named as in the spec.
In the Rust code these are `eyre!` error values distinguished by message. -/
inductive UciError where
  /-- "Engine {} closed unexpectedly": a read returned zero bytes. -/
  | engineDisconnected
  /-- "Empty bestmove": an announcement line carried no move token. -/
  | protocolViolation
deriving DecidableEq, Repr

/-! ## Engine protocol client (`src/engine/uci.rs`)

An engine's standard output is modelled as the list of lines the client
will read, in order; reaching the end of the list models the stream
closing (`read_line` returning `0`). -/

/-- `UciEngine::wait_for` (src/engine/uci.rs:56-70): read lines until one
trims to `expected`; a zero-byte read (stream end) is the disconnection
error. -/
def wait_for (expected : String) : List String → Except UciError Unit
  | [] => Except.error UciError.engineDisconnected
  | line :: rest =>
      if rustTrim line = expected then Except.ok ()
      else wait_for expected rest

/-- The read phase of `UciEngine::new` (src/engine/uci.rs:21-44): after
sending "uci", block until the handshake acknowledgement "uciok". -/
def handshakeWait (lines : List String) : Except UciError Unit :=
  wait_for "uciok" lines

/-- The read phase of `UciEngine::new_game` (src/engine/uci.rs:76-80):
after "ucinewgame" and "isready", block until "readyok". -/
def newGameWait (lines : List String) : Except UciError Unit :=
  wait_for "readyok" lines

/-- `UciEngine::set_position` (src/engine/uci.rs:86-93): the command text
written to the engine. -/
def set_position (moves : List String) : String :=
  if moves.isEmpty then "position startpos"
  else "position startpos moves " ++ String.intercalate " " moves

/-- The read phase of `UciEngine::get_best_move` (src/engine/uci.rs:99-118):
scan lines; a line whose trimmed form strips the announcement keyword
prefix `"bestmove "` yields the first whitespace token of the remainder
(the "Empty bestmove" protocol violation if there is none); every other
line is discarded; stream end is the disconnection error. -/
def getBestMoveFrom : List String → Except UciError String
  | [] => Except.error UciError.engineDisconnected
  | line :: rest =>
      match stripPrefixQ "bestmove " (rustTrim line) with
      | some r =>
          match splitWhitespaceNext r with
          | some bm => Except.ok bm
          | none => Except.error UciError.protocolViolation
      | none => getBestMoveFrom rest

example : getBestMoveFrom ["info depth 1", "bestmove e2e4 ponder d7d5"] =
    Except.ok "e2e4" := by decide

example : getBestMoveFrom ["bestmove"] =
    Except.error UciError.engineDisconnected := by decide

/-! ## Rules collaborator interface

`play_game` consumes the shakmaty crate only through the following calls:
`Chess::default()`, `position.turn()`, `UciMove::from_str` (via `parse`),
`uci_move.to_move(&position)`, `position.play(&move)`,
`position.is_checkmate()`, `position.is_stalemate()`,
`position.is_insufficient_material()`, `position.halfmoves()`.  The crate
is an external collaborator (out of the repository's scope), so it is
modelled by an abstract record with exactly those operations; fallible
calls return `Option`. -/

/-- `shakmaty::Color`. -/
inductive Color where
  | white
  | black
deriving DecidableEq, Repr

/-- The rules collaborator: `Pos` is the position type (`Chess`), `Uci`
the parsed UCI move type (`UciMove`), `Mv` the resolved legal move type
(`Move`). -/
structure ChessApi (Pos Uci Mv : Type) where
  /-- `Chess::default()`: the standard starting position. -/
  start : Pos
  /-- `position.turn()`. -/
  turn : Pos → Color
  /-- `uci_move_str.parse::<UciMove>()`; `none` models the parse error. -/
  parseUci : String → Option Uci
  /-- `uci_move.to_move(&position)`; `none` models the illegality error. -/
  toMove : Uci → Pos → Option Mv
  /-- `position.play(&chess_move)`; `none` models the application error. -/
  play : Pos → Mv → Option Pos
  /-- `position.is_checkmate()`. -/
  is_checkmate : Pos → Bool
  /-- `position.is_stalemate()`. -/
  is_stalemate : Pos → Bool
  /-- `position.is_insufficient_material()`. -/
  is_insufficient_material : Pos → Bool
  /-- `position.halfmoves()`. -/
  halfmoves : Pos → Nat

/-- Errors `play_game` itself produces (`src/game/runner.rs:62-73`). -/
inductive GameError where
  /-- "Invalid UCI move": the token failed to parse. -/
  | invalidMove (token : String)
  /-- "Illegal move": the parsed move was rejected against the position. -/
  | illegalMove (token : String)
  /-- "Failed to apply move": application refused after legality. -/
  | applyError (token : String)
deriving DecidableEq, Repr

/-! ## Game runner (`src/game/runner.rs`)

Each engine is modelled by its deterministic response to a position
context: a function from the accumulated move-token list (the argument of
`set_position`) to the string `get_best_move` returns.  Engine
communication failures are outside this model (they propagate
uninterpreted); the fuel parameter counts the remaining iterations of the
`for move_num in 0..self.max_moves` loop. -/

section Runner

variable {Pos Uci Mv : Type}

/-- The body of `GameRunner::play_game`'s move loop
(src/game/runner.rs:40-101), with `fuel` iterations remaining; fuel `0`
is the loop's exit, declaring a draw (src/game/runner.rs:108). -/
def playGameLoop (api : ChessApi Pos Uci Mv) (white black : List String → String) :
    Nat → Pos → List String → Except GameError GameResult
  | 0, _, _ => Except.ok GameResult.Draw
  | fuel + 1, position, moves =>
      let uci_move_str :=
        if api.turn position = Color.white then white moves else black moves
      if uci_move_str = "(none)" ∨ uci_move_str = "" then
        Except.ok (if api.turn position = Color.white then
          GameResult.BlackWins else GameResult.WhiteWins)
      else
        match api.parseUci uci_move_str with
        | none => Except.error (GameError.invalidMove uci_move_str)
        | some uci_move =>
            match api.toMove uci_move position with
            | none => Except.error (GameError.illegalMove uci_move_str)
            | some chess_move =>
                match api.play position chess_move with
                | none => Except.error (GameError.applyError uci_move_str)
                | some position2 =>
                    if api.is_checkmate position2 then
                      Except.ok (if api.turn position2 = Color.white then
                        GameResult.BlackWins else GameResult.WhiteWins)
                    else if api.is_stalemate position2 ||
                        api.is_insufficient_material position2 then
                      Except.ok GameResult.Draw
                    else if 100 ≤ api.halfmoves position2 then
                      Except.ok GameResult.Draw
                    else
                      playGameLoop api white black fuel position2
                        (moves ++ [uci_move_str])

/-- `GameRunner` (src/game/runner.rs:9-12). -/
structure GameRunner where
  movetime_ms : Nat
  max_moves : Nat

/-- `GameRunner::play_game` (src/game/runner.rs:28-109): start from the
default position with an empty move list and run at most `max_moves`
loop iterations.  The `movetime_ms` budget is passed to the engines in
the Rust code; the modelled engine responses already account for it. -/
def GameRunner.play_game (r : GameRunner) (api : ChessApi Pos Uci Mv)
    (white black : List String → String) : Except GameError GameResult :=
  playGameLoop api white black r.max_moves api.start []

end Runner

/-! ## Replay log of the game loop

`play_game` keeps the board position and the move-token list in lockstep:
`moves.push(uci_move_str)` happens exactly at a successful
`position.play` (src/game/runner.rs:71-74).  `MoveStep` is the successful
move path of one loop iteration — its hypotheses are, in order, the
response selection (src/game/runner.rs:44-50), the sentinel guard
(line 53), the parse (line 62), the legality resolution (line 66) and the
application (line 71); `replayTokens` replays a token list from the
starting position through the same three rules-collaborator calls. -/

section Replay

variable {Pos Uci Mv : Type}

/-- Replaying one token onto an optional position via parse, legality
resolution and application. -/
def replayOne (api : ChessApi Pos Uci Mv) (op : Option Pos) (s : String) : Option Pos :=
  op.bind fun p => (api.parseUci s).bind fun u =>
    (api.toMove u p).bind fun m => api.play p m

/-- Replaying a token list, in order, from the starting position. -/
def replayTokens (api : ChessApi Pos Uci Mv) (moves : List String) : Option Pos :=
  moves.foldl (replayOne api) (some api.start)

/-- One successful move of the `play_game` loop, relating the
(position, move list) pair before the iteration to the pair after it. -/
inductive MoveStep (api : ChessApi Pos Uci Mv) (white black : List String → String) :
    Pos × List String → Pos × List String → Prop
  | step (position : Pos) (moves : List String) (s : String) (u : Uci) (m : Mv) (p2 : Pos)
      (hresp : s = if api.turn position = Color.white then white moves else black moves)
      (hnone : s ≠ "(none)") (hempty : s ≠ "")
      (hparse : api.parseUci s = some u)
      (hto : api.toMove u position = some m)
      (hplay : api.play position m = some p2) :
      MoveStep api white black (position, moves) (p2, moves ++ [s])

end Replay

/-! ## Concrete rules-collaborator instances

Small executable instances of `ChessApi` used to exercise the theorems on
concrete inputs.  `listApi` records the applied tokens as the position and
never reports a terminal condition; `mateApi` reports checkmate as soon as
one move is on the board; `clockApi` reports a saturated half-move
clock. -/

/-- Positions are the list of applied tokens; White moves on even ply. -/
def listApi : ChessApi (List String) String String where
  start := []
  turn := fun p => if p.length % 2 = 0 then Color.white else Color.black
  parseUci := fun s => some s
  toMove := fun u _ => some u
  play := fun p m => some (p ++ [m])
  is_checkmate := fun _ => false
  is_stalemate := fun _ => false
  is_insufficient_material := fun _ => false
  halfmoves := fun _ => 0

/-- As `listApi`, but any position with a move on the board is checkmate. -/
def mateApi : ChessApi (List String) String String :=
  { listApi with is_checkmate := fun p => decide (p.length = 1) }

/-- As `listApi`, but the half-move clock is always at the threshold. -/
def clockApi : ChessApi (List String) String String :=
  { listApi with halfmoves := fun _ => 100 }

/-! ## Match statistics (`src/main.rs:46-137`)

The Rust counters are `AtomicU64`s mutated with relaxed
fetch-and-increment; a single `record` call is modelled as a pure update
of the eight counters, and an interleaved run as a fold over the sequence
of recorded messages. -/

/-- `MatchStats` (src/main.rs:46-57). -/
structure MatchStats where
  stockfish_wins : Nat
  reckless_wins : Nat
  draws : Nat
  stockfish_white_wins : Nat
  stockfish_black_wins : Nat
  reckless_white_wins : Nat
  reckless_black_wins : Nat
  games_completed : Nat
deriving DecidableEq, Repr

/-- `MatchStats::default()`: all counters zero. -/
def MatchStats.zero : MatchStats := ⟨0, 0, 0, 0, 0, 0, 0, 0⟩

/-- `GameCompleted` (src/main.rs:140-143): the message a worker sends to
the aggregator. -/
structure CompletionMessage where
  result : GameResult
  stockfish_is_white : Bool
deriving DecidableEq, Repr

/-- `MatchStats::record` (src/main.rs:60-85). -/
def MatchStats.record (s : MatchStats) (m : CompletionMessage) : MatchStats :=
  let s1 :=
    match m.result with
    | GameResult.WhiteWins =>
        if m.stockfish_is_white then
          { s with stockfish_wins := s.stockfish_wins + 1,
                   stockfish_white_wins := s.stockfish_white_wins + 1 }
        else
          { s with reckless_wins := s.reckless_wins + 1,
                   reckless_white_wins := s.reckless_white_wins + 1 }
    | GameResult.BlackWins =>
        if m.stockfish_is_white then
          { s with reckless_wins := s.reckless_wins + 1,
                   reckless_black_wins := s.reckless_black_wins + 1 }
        else
          { s with stockfish_wins := s.stockfish_wins + 1,
                   stockfish_black_wins := s.stockfish_black_wins + 1 }
    | GameResult.Draw => { s with draws := s.draws + 1 }
  { s1 with games_completed := s1.games_completed + 1 }

/-! ## Worker pool and work counter (`src/main.rs:146-211`)

`run_worker`'s claiming loop: `game_counter.fetch_add(1, Relaxed)` claims
an index; the worker stops when the claimed index reaches `total_games`.
Concurrency is modelled by a step relation on a shared state: one step is
one worker's atomic fetch-and-increment (the fetch, the increment and the
recording of the claim happen in one step, which is exactly the atomicity
the `AtomicU64` gives), and a schedule is any interleaving of steps. -/

/-- One worker's claiming history: the indices its fetch-and-increments
returned, in order, and whether it has exited the claiming loop. -/
structure Worker where
  claims : List Nat
  stopped : Bool
deriving DecidableEq, Repr

/-- The shared state of a run: the work counter and every worker. -/
structure RunState where
  counter : Nat
  workers : List Worker
deriving DecidableEq, Repr

/-- The result of one loop iteration of `run_worker` (src/main.rs:163-168)
for a worker that fetched index `c`: the claim is recorded and the worker
stops exactly when `total_games ≤ c`. -/
def claimStep (total_games c : Nat) (w : Worker) : Worker :=
  { claims := w.claims ++ [c], stopped := decide (total_games ≤ c) }

/-- The interleaving semantics: a still-running worker atomically
fetch-and-increments the shared counter and processes the claimed index. -/
inductive WorkerStep (total_games : Nat) : RunState → RunState → Prop
  | claim (c : Nat) (pre post : List Worker) (w : Worker)
      (hrun : w.stopped = false) :
      WorkerStep total_games
        ⟨c, pre ++ w :: post⟩
        ⟨c + 1, pre ++ claimStep total_games c w :: post⟩

/-- The initial state for `W` workers: counter `0`, no claims. -/
def initRun (W : Nat) : RunState :=
  ⟨0, List.replicate W ⟨[], false⟩⟩

/-- All indices claimed during a run, in worker order. -/
def allClaims (s : RunState) : List Nat :=
  (s.workers.map Worker.claims).flatten

/-- `stockfish_is_white` (src/main.rs:171): colors alternate with the
parity of the claimed game index. -/
def stockfish_is_white (game_num : Nat) : Bool :=
  game_num % 2 = 0

/-- The color assignment of `run_worker` (src/main.rs:170-177): which
named engine plays White and which plays Black for game index `game_num`. -/
def assignColors (game_num : Nat) : String × String :=
  if stockfish_is_white game_num then ("stockfish", "reckless")
  else ("reckless", "stockfish")

/-- Invariant of a run of the claiming loop: the worker count is fixed,
every claimed index is below the counter, no index is claimed twice, a
worker holds exactly one claim at or above the target exactly when it has
stopped, and a stopped worker's last fetch was at or above the target. -/
def runInv (total_games W : Nat) (s : RunState) : Prop :=
  s.workers.length = W ∧
  (∀ c ∈ allClaims s, c < s.counter) ∧
  (allClaims s).Nodup ∧
  (∀ w ∈ s.workers,
    (w.claims.filter (fun c => decide (total_games ≤ c))).length =
      (if w.stopped then 1 else 0) ∧
    (w.stopped = true → ∃ c, w.claims.getLast? = some c ∧ total_games ≤ c))

/-- The cross-counter consistency invariants of `MatchStats`: outcomes
partition completed games and each engine's wins split by color. -/
def statsInv (s : MatchStats) : Prop :=
  s.stockfish_wins + s.reckless_wins + s.draws = s.games_completed ∧
  s.stockfish_white_wins + s.stockfish_black_wins = s.stockfish_wins ∧
  s.reckless_white_wins + s.reckless_black_wins = s.reckless_wins

/-! # Theorems -/

/-- C9: whenever the output stream closes (the line list ends) before any
line trims to the expected acknowledgement token, the acknowledgement
wait — and hence the handshake wait of `UciEngine::new` — returns
`EngineDisconnected`; the wait is a total function of the finite stream,
so it cannot block.  In particular a process that closes its output
immediately after spawn (an empty stream) yields this error. -/
theorem c9_closed_stream_disconnects (expected : String) (lines : List String)
    (h : ∀ l ∈ lines, rustTrim l ≠ expected) :
    wait_for expected lines = Except.error UciError.engineDisconnected ∧
    handshakeWait [] = Except.error UciError.engineDisconnected := by
  refine ⟨?_, rfl⟩
  induction lines with
  | nil => rfl
  | cons l rest ih =>
      have h1 : rustTrim l ≠ expected := h l (List.mem_cons_self l rest)
      have h2 : ∀ x ∈ rest, rustTrim x ≠ expected :=
        fun x hx => h x (List.mem_cons_of_mem l hx)
      simpa [wait_for, h1] using ih h2

theorem c9_closed_stream_disconnects_witness :
    (∀ l ∈ ["info string ready", "id name test"], rustTrim l ≠ "uciok") ∧
    (wait_for "uciok" ["info string ready", "id name test"] =
      Except.error UciError.engineDisconnected ∧
     handshakeWait [] = Except.error UciError.engineDisconnected) :=
  ⟨by decide,
   c9_closed_stream_disconnects "uciok" ["info string ready", "id name test"] (by decide)⟩

/-- C1 counterexample: the line `"bestmove"` is a best-move announcement
line carrying no move token after the keyword, yet `getBestMoveFrom` does
not fail with the protocol violation on it: it silently skips the line,
reporting the disconnection when the stream then ends, and extracting a
move from a later announcement when one follows. -/
theorem c1_counterexample :
    getBestMoveFrom ["bestmove"] ≠ Except.error UciError.protocolViolation ∧
    getBestMoveFrom ["bestmove"] = Except.error UciError.engineDisconnected ∧
    getBestMoveFrom ["bestmove", "bestmove e2e4"] = Except.ok "e2e4" := by
  decide

/-- C1 (amended): a best-move announcement line carrying no move token
after the announcement keyword — one whose trimmed form is the bare
keyword `"bestmove"` — is silently skipped by `getBestMoveFrom` (the
announcement match requires the keyword followed by a space, and trimming
removes trailing whitespace), and scanning continues with the remaining
lines; the `ProtocolViolation` ("Empty bestmove") branch is not taken on
such a line. -/
theorem c1_tokenless_announcement_skipped (line : String) (rest : List String)
    (h : rustTrim line = "bestmove") :
    getBestMoveFrom (line :: rest) = getBestMoveFrom rest := by
  have hp : stripPrefixQ "bestmove " (rustTrim line) = none := by
    rw [h]; decide
  simp [getBestMoveFrom, hp]

theorem c1_tokenless_announcement_skipped_witness :
    rustTrim "  bestmove\t" = "bestmove" ∧
    getBestMoveFrom ["  bestmove\t", "bestmove d2d4"] =
      getBestMoveFrom ["bestmove d2d4"] :=
  ⟨by decide, c1_tokenless_announcement_skipped "  bestmove\t" ["bestmove d2d4"] (by decide)⟩

/-- C6: `run_worker` assigns colors by the parity of the claimed game
index: an even index gives the first-named engine (stockfish) White, an
odd index gives it Black; in particular index 0 gives it White and
index 1 gives it Black. -/
theorem c6_color_parity :
    (∀ n : Nat, n % 2 = 0 → assignColors n = ("stockfish", "reckless")) ∧
    (∀ n : Nat, n % 2 = 1 → assignColors n = ("reckless", "stockfish")) ∧
    assignColors 0 = ("stockfish", "reckless") ∧
    assignColors 1 = ("reckless", "stockfish") := by
  refine ⟨?_, ?_, by decide, by decide⟩
  · intro n hn
    simp [assignColors, stockfish_is_white, hn]
  · intro n hn
    simp [assignColors, stockfish_is_white, hn]

theorem c6_color_parity_witness :
    (4 % 2 = 0 ∧ assignColors 4 = ("stockfish", "reckless")) ∧
    (7 % 2 = 1 ∧ assignColors 7 = ("reckless", "stockfish")) :=
  ⟨⟨by decide, c6_color_parity.1 4 (by decide)⟩,
   ⟨by decide, c6_color_parity.2.1 7 (by decide)⟩⟩

/-- Two `record` calls commute: each call increments a fixed set of
counters by one, so the composed updates agree field by field. -/
theorem record_comm (s : MatchStats) (a b : CompletionMessage) :
    (s.record a).record b = (s.record b).record a := by
  rcases a with ⟨ra, wa⟩
  rcases b with ⟨rb, wb⟩
  cases ra <;> cases rb <;> cases wa <;> cases wb <;> rfl

/-- Folding `record` from any base commutes with permutation of the
message list. -/
theorem foldl_record_perm (s : MatchStats) {l₁ l₂ : List CompletionMessage}
    (h : l₁.Perm l₂) :
    l₁.foldl MatchStats.record s = l₂.foldl MatchStats.record s := by
  induction h generalizing s with
  | nil => rfl
  | cons x _ ih => simpa using ih (s.record x)
  | swap x y l => simp [record_comm]
  | trans _ _ ih₁ ih₂ => exact (ih₁ s).trans (ih₂ s)

/-- C7: accumulation in `MatchStats::record` is order-independent: for
every multiset of `CompletionMessage`s, folding `record` over any
permutation of it from the zero-initialized stats yields identical final
values of all eight counters. -/
theorem c7_record_order_independent (l₁ l₂ : List CompletionMessage)
    (h : l₁.Perm l₂) :
    l₁.foldl MatchStats.record MatchStats.zero =
      l₂.foldl MatchStats.record MatchStats.zero :=
  foldl_record_perm MatchStats.zero h

theorem c7_record_order_independent_witness :
    ([⟨GameResult.WhiteWins, true⟩, ⟨GameResult.Draw, false⟩,
      ⟨GameResult.BlackWins, true⟩] : List CompletionMessage).Perm
      [⟨GameResult.BlackWins, true⟩, ⟨GameResult.WhiteWins, true⟩,
       ⟨GameResult.Draw, false⟩] ∧
    ([⟨GameResult.WhiteWins, true⟩, ⟨GameResult.Draw, false⟩,
      ⟨GameResult.BlackWins, true⟩] : List CompletionMessage).foldl
        MatchStats.record MatchStats.zero =
      ([⟨GameResult.BlackWins, true⟩, ⟨GameResult.WhiteWins, true⟩,
        ⟨GameResult.Draw, false⟩] : List CompletionMessage).foldl
        MatchStats.record MatchStats.zero :=
  ⟨by decide,
   c7_record_order_independent _ _ (by decide)⟩

/-- Each `record` call preserves `statsInv` and increments
`games_completed` by one while never decreasing any counter. -/
theorem record_step (s : MatchStats) (m : CompletionMessage) :
    (statsInv s → statsInv (s.record m)) ∧
    (s.record m).games_completed = s.games_completed + 1 ∧
    s.stockfish_wins ≤ (s.record m).stockfish_wins ∧
    s.reckless_wins ≤ (s.record m).reckless_wins ∧
    s.draws ≤ (s.record m).draws ∧
    s.stockfish_white_wins ≤ (s.record m).stockfish_white_wins ∧
    s.stockfish_black_wins ≤ (s.record m).stockfish_black_wins ∧
    s.reckless_white_wins ≤ (s.record m).reckless_white_wins ∧
    s.reckless_black_wins ≤ (s.record m).reckless_black_wins ∧
    s.games_completed ≤ (s.record m).games_completed := by
  rcases m with ⟨r, w⟩
  cases r <;> cases w <;>
    simp [MatchStats.record, statsInv] <;> omega

/-- C10: from the zero-initialized stats, any sequence of `record` calls
maintains `stockfish_wins + reckless_wins + draws = games_completed`,
`stockfish_white_wins + stockfish_black_wins = stockfish_wins` and
`reckless_white_wins + reckless_black_wins = reckless_wins`; moreover
each individual call increments `games_completed` by exactly one and
never decreases any of the eight counters. -/
theorem c10_record_invariants :
    (∀ msgs : List CompletionMessage,
      statsInv (msgs.foldl MatchStats.record MatchStats.zero)) ∧
    (∀ (s : MatchStats) (m : CompletionMessage),
      (s.record m).games_completed = s.games_completed + 1 ∧
      s.stockfish_wins ≤ (s.record m).stockfish_wins ∧
      s.reckless_wins ≤ (s.record m).reckless_wins ∧
      s.draws ≤ (s.record m).draws ∧
      s.stockfish_white_wins ≤ (s.record m).stockfish_white_wins ∧
      s.stockfish_black_wins ≤ (s.record m).stockfish_black_wins ∧
      s.reckless_white_wins ≤ (s.record m).reckless_white_wins ∧
      s.reckless_black_wins ≤ (s.record m).reckless_black_wins ∧
      s.games_completed ≤ (s.record m).games_completed) := by
  constructor
  · have step : ∀ (msgs : List CompletionMessage) (s : MatchStats),
        statsInv s → statsInv (msgs.foldl MatchStats.record s) := by
      intro msgs
      induction msgs with
      | nil => exact fun s hs => hs
      | cons m rest ih => exact fun s hs => ih _ ((record_step s m).1 hs)
    exact fun msgs => step msgs MatchStats.zero (by simp [statsInv, MatchStats.zero])
  · intro s m
    exact (record_step s m).2

/-- Unfolding one loop iteration of `play_game` along the successful move
path: when the side to move's response `s` is not the sentinel, parses,
resolves and applies to `position2`, the iteration reduces to the terminal
checks on `position2`, in source order, with the recursive call carrying
the extended move list. -/
theorem playGameLoop_apply_step {Pos Uci Mv : Type} (api : ChessApi Pos Uci Mv)
    (white black : List String → String) (fuel : Nat) (position : Pos)
    (moves : List String) (s : String) (u : Uci) (m : Mv) (p2 : Pos)
    (hresp : (if api.turn position = Color.white then white moves else black moves) = s)
    (hnone : s ≠ "(none)") (hempty : s ≠ "")
    (hparse : api.parseUci s = some u)
    (hto : api.toMove u position = some m)
    (hplay : api.play position m = some p2) :
    playGameLoop api white black (fuel + 1) position moves =
      (if api.is_checkmate p2 then
        Except.ok (if api.turn p2 = Color.white then GameResult.BlackWins
          else GameResult.WhiteWins)
      else if api.is_stalemate p2 || api.is_insufficient_material p2 then
        Except.ok GameResult.Draw
      else if 100 ≤ api.halfmoves p2 then Except.ok GameResult.Draw
      else playGameLoop api white black fuel p2 (moves ++ [s])) := by
  simp only [playGameLoop, hresp, hparse, hto, hplay]
  rw [if_neg (not_or.mpr ⟨hnone, hempty⟩)]

/-- C2: whenever the engine of the side to move answers with the
resignation sentinel `"(none)"` or the empty string, the loop immediately
returns the win for the opponent — `BlackWins` when White was to move,
`WhiteWins` when Black was — and in particular `play_game` returns
`BlackWins` when White's engine does so on the first move of the game. -/
theorem c2_resignation_loses :
    (∀ {Pos Uci Mv : Type} (api : ChessApi Pos Uci Mv)
       (white black : List String → String) (fuel : Nat) (position : Pos)
       (moves : List String),
       ((if api.turn position = Color.white then white moves else black moves) = "(none)" ∨
        (if api.turn position = Color.white then white moves else black moves) = "") →
       playGameLoop api white black (fuel + 1) position moves =
         Except.ok (if api.turn position = Color.white then GameResult.BlackWins
           else GameResult.WhiteWins)) ∧
    (∀ {Pos Uci Mv : Type} (api : ChessApi Pos Uci Mv)
       (white black : List String → String) (r : GameRunner),
       0 < r.max_moves → api.turn api.start = Color.white →
       (white [] = "(none)" ∨ white [] = "") →
       r.play_game api white black = Except.ok GameResult.BlackWins) := by
  have main : ∀ {Pos Uci Mv : Type} (api : ChessApi Pos Uci Mv)
      (white black : List String → String) (fuel : Nat) (position : Pos)
      (moves : List String),
      ((if api.turn position = Color.white then white moves else black moves) = "(none)" ∨
       (if api.turn position = Color.white then white moves else black moves) = "") →
      playGameLoop api white black (fuel + 1) position moves =
        Except.ok (if api.turn position = Color.white then GameResult.BlackWins
          else GameResult.WhiteWins) := by
    intro Pos Uci Mv api white black fuel position moves hs
    simp only [playGameLoop]
    rw [if_pos hs]
  refine ⟨main, ?_⟩
  intro Pos Uci Mv api white black r hr hturn hw
  rcases r with ⟨mt, mm⟩
  cases mm with
  | zero => exact absurd hr (by simp)
  | succ fuel =>
      have hcond : (if api.turn api.start = Color.white then white [] else black [])
          = white [] := by rw [hturn]; simp
      have h := main api white black fuel api.start [] (by rw [hcond]; exact hw)
      rw [hturn] at h
      simpa [GameRunner.play_game] using h

theorem c2_resignation_loses_witness :
    (0 < (500 : Nat) ∧ listApi.turn listApi.start = Color.white ∧
     (fun _ : List String => "(none)") [] = "(none)") ∧
    GameRunner.play_game ⟨100, 500⟩ listApi (fun _ => "(none)") (fun _ => "e7e5") =
      Except.ok GameResult.BlackWins :=
  ⟨⟨by decide, by decide, rfl⟩,
   c2_resignation_loses.2 listApi (fun _ => "(none)") (fun _ => "e7e5") ⟨100, 500⟩
     (by decide) (by decide) (Or.inl rfl)⟩

/-- C3: after a successfully applied move the loop queries the terminal
conditions in source order: checkmate first (the side that just moved
wins — `WhiteWins` when Black is now to move, `BlackWins` when White is),
then stalemate or insufficient material (`Draw`), then the half-move
clock reaching 100 (`Draw`); an earlier condition decides regardless of
the later ones. -/
theorem c3_terminal_check_order {Pos Uci Mv : Type} (api : ChessApi Pos Uci Mv)
    (white black : List String → String) (fuel : Nat) (position : Pos)
    (moves : List String) (s : String) (u : Uci) (m : Mv) (p2 : Pos)
    (hresp : (if api.turn position = Color.white then white moves else black moves) = s)
    (hnone : s ≠ "(none)") (hempty : s ≠ "")
    (hparse : api.parseUci s = some u)
    (hto : api.toMove u position = some m)
    (hplay : api.play position m = some p2) :
    (api.is_checkmate p2 = true →
      playGameLoop api white black (fuel + 1) position moves =
        Except.ok (if api.turn p2 = Color.white then GameResult.BlackWins
          else GameResult.WhiteWins)) ∧
    (api.is_checkmate p2 = false →
      (api.is_stalemate p2 || api.is_insufficient_material p2) = true →
      playGameLoop api white black (fuel + 1) position moves =
        Except.ok GameResult.Draw) ∧
    (api.is_checkmate p2 = false →
      (api.is_stalemate p2 || api.is_insufficient_material p2) = false →
      100 ≤ api.halfmoves p2 →
      playGameLoop api white black (fuel + 1) position moves =
        Except.ok GameResult.Draw) := by
  have h := playGameLoop_apply_step api white black fuel position moves s u m p2
    hresp hnone hempty hparse hto hplay
  refine ⟨?_, ?_, ?_⟩
  · intro hmate; rw [h, if_pos hmate]
  · intro hmate hdraw; rw [h, if_neg (by simp [hmate]), if_pos hdraw]
  · intro hmate hdraw hclock
    rw [h, if_neg (by simp [hmate]), if_neg (by simp [hdraw]), if_pos hclock]

theorem c3_terminal_check_order_witness :
    mateApi.is_checkmate ["e2e4"] = true ∧
    playGameLoop mateApi (fun _ => "e2e4") (fun _ => "g8f6") 5 [] [] =
      Except.ok GameResult.WhiteWins := by
  refine ⟨by decide, ?_⟩
  have h := (c3_terminal_check_order mateApi (fun _ => "e2e4") (fun _ => "g8f6") 4 [] []
    "e2e4" "e2e4" "e2e4" ["e2e4"] (by decide) (by decide) (by decide) rfl rfl rfl).1
    (by decide)
  rw [h]
  decide

/-- C4: the loop returns `Draw` in both bounded-game cases: when the ply
budget is exhausted with no terminal condition (the loop exits after
`max_moves` iterations), and when after an applied move the position's
half-move clock has reached 100 while neither checkmate nor
stalemate/insufficient material holds. -/
theorem c4_bounded_draws :
    (∀ {Pos Uci Mv : Type} (api : ChessApi Pos Uci Mv)
       (white black : List String → String) (position : Pos) (moves : List String),
       playGameLoop api white black 0 position moves = Except.ok GameResult.Draw) ∧
    (∀ {Pos Uci Mv : Type} (api : ChessApi Pos Uci Mv)
       (white black : List String → String) (fuel : Nat) (position : Pos)
       (moves : List String) (s : String) (u : Uci) (m : Mv) (p2 : Pos),
       (if api.turn position = Color.white then white moves else black moves) = s →
       s ≠ "(none)" → s ≠ "" →
       api.parseUci s = some u → api.toMove u position = some m →
       api.play position m = some p2 →
       api.is_checkmate p2 = false →
       (api.is_stalemate p2 || api.is_insufficient_material p2) = false →
       100 ≤ api.halfmoves p2 →
       playGameLoop api white black (fuel + 1) position moves =
         Except.ok GameResult.Draw) := by
  constructor
  · intro Pos Uci Mv api white black position moves
    rfl
  · intro Pos Uci Mv api white black fuel position moves s u m p2
      hresp hnone hempty hparse hto hplay hmate hdraw hclock
    have h := playGameLoop_apply_step api white black fuel position moves s u m p2
      hresp hnone hempty hparse hto hplay
    rw [h, if_neg (by simp [hmate]), if_neg (by simp [hdraw]), if_pos hclock]

theorem c4_bounded_draws_witness :
    (playGameLoop listApi (fun _ => "e2e4") (fun _ => "e7e5") 0 [] [] =
      Except.ok GameResult.Draw) ∧
    (100 ≤ clockApi.halfmoves ["e2e4"] ∧
     playGameLoop clockApi (fun _ => "e2e4") (fun _ => "e7e5") 8 [] [] =
      Except.ok GameResult.Draw) :=
  ⟨c4_bounded_draws.1 listApi (fun _ => "e2e4") (fun _ => "e7e5") [] [],
   ⟨by decide,
    c4_bounded_draws.2 clockApi (fun _ => "e2e4") (fun _ => "e7e5") 7 [] []
      "e2e4" "e2e4" "e2e4" ["e2e4"] (by decide) (by decide) (by decide) rfl rfl rfl
      (by decide) (by decide) (by decide)⟩⟩

/-- C8: the replay-log invariant of the `play_game` move loop: at every
reachable loop iteration — any finite sequence of successful moves from
the standard starting position with the empty move list — replaying the
accumulated move-token list, in order, from the starting position
reproduces the current board position; each token enters the list exactly
at its successful application, as `MoveStep` records. -/
theorem c8_replay_invariant {Pos Uci Mv : Type} (api : ChessApi Pos Uci Mv)
    (white black : List String → String) (st : Pos × List String)
    (h : Relation.ReflTransGen (MoveStep api white black) (api.start, []) st) :
    replayTokens api st.2 = some st.1 := by
  induction h with
  | refl => rfl
  | tail hsteps hstep ih =>
      cases hstep with
      | step position moves s u m p2 hresp hnone hempty hparse hto hplay =>
          simp only at ih
          show replayTokens api (moves ++ [s]) = some p2
          have hsplit : replayTokens api (moves ++ [s]) =
              replayOne api (replayTokens api moves) s := by
            simp [replayTokens, List.foldl_append]
          rw [hsplit, ih]
          simp [replayOne, hparse, hto, hplay]

theorem c8_replay_invariant_witness :
    replayTokens listApi ["e2e4"] = some ["e2e4"] :=
  c8_replay_invariant listApi (fun _ => "e2e4") (fun _ => "c7c5") (["e2e4"], ["e2e4"])
    (Relation.ReflTransGen.single
      (MoveStep.step [] [] "e2e4" "e2e4" "e2e4" ["e2e4"]
        (by decide) (by decide) (by decide) rfl rfl rfl))

/-- Flattening identical empty claim lists yields no claims. -/
theorem flatten_replicate_nil {α : Type} (n : Nat) :
    (List.replicate n ([] : List α)).flatten = [] := by
  induction n with
  | zero => rfl
  | succ k ih => simp [List.replicate_succ, ih]

/-- Membership in the claims of a run state, by worker. -/
theorem mem_allClaims {x cnt : Nat} {ws : List Worker} :
    x ∈ allClaims ⟨cnt, ws⟩ ↔ ∃ w ∈ ws, x ∈ w.claims := by
  simp [allClaims, List.mem_flatten]

/-- The claims of a run state whose worker list is split around one
worker. -/
theorem allClaims_split (cnt : Nat) (pre post : List Worker) (w : Worker) :
    allClaims ⟨cnt, pre ++ w :: post⟩ =
      (pre.map Worker.claims).flatten ++
        (w.claims ++ (post.map Worker.claims).flatten) := by
  simp [allClaims]

/-- Inserting a fresh element between two halves keeps a list
duplicate-free. -/
theorem nodup_insert_middle {A B wc : List Nat} {c : Nat}
    (hnd : (A ++ (wc ++ B)).Nodup) (hc : c ∉ A ++ (wc ++ B)) :
    (A ++ ((wc ++ [c]) ++ B)).Nodup := by
  have h1 : A ++ ((wc ++ [c]) ++ B) = (A ++ wc) ++ c :: B := by
    simp [List.append_assoc]
  rw [h1, List.nodup_middle, List.nodup_cons]
  constructor
  · simpa [List.append_assoc] using hc
  · simpa [List.append_assoc] using hnd

/-- The initial run state satisfies the claiming-loop invariant. -/
theorem runInv_init (G W : Nat) : runInv G W (initRun W) := by
  have hclaims : allClaims (initRun W) = [] := by
    simp [initRun, allClaims, List.map_replicate, flatten_replicate_nil]
  refine ⟨by simp [initRun], ?_, ?_, ?_⟩
  · intro c hc
    rw [hclaims] at hc
    exact absurd hc (List.not_mem_nil c)
  · rw [hclaims]
    exact List.nodup_nil
  · intro w hw
    rw [initRun, List.mem_replicate] at hw
    rw [hw.2]
    simp

/-- One interleaved claiming step preserves the invariant. -/
theorem runInv_step (G W : Nat) {s t : RunState} (hstep : WorkerStep G s t)
    (hinv : runInv G W s) : runInv G W t := by
  cases hstep with
  | claim c pre post w hrun =>
      obtain ⟨hlen, hlt, hnodup, hworkers⟩ := hinv
      have hwmem : w ∈ pre ++ w :: post := by simp
      have hwinv := hworkers w hwmem
      have h0 := hwinv.1
      rw [hrun, if_neg Bool.false_ne_true] at h0
      have hwfilter : w.claims.filter (fun x => decide (G ≤ x)) = [] :=
        List.length_eq_zero.mp h0
      refine ⟨?_, ?_, ?_, ?_⟩
      · simpa using hlen
      · intro x hx
        show x < c + 1
        rw [mem_allClaims] at hx
        obtain ⟨v, hv, hxv⟩ := hx
        rcases List.mem_append.mp hv with hvpre | hvrest
        · have : x < c := hlt x (mem_allClaims.mpr ⟨v, by simp [hvpre], hxv⟩)
          omega
        · rcases List.mem_cons.mp hvrest with hveq | hvpost
          · rw [hveq] at hxv
            rcases List.mem_append.mp hxv with hxw | hxc
            · have : x < c := hlt x (mem_allClaims.mpr ⟨w, by simp, hxw⟩)
              omega
            · have : x = c := by simpa using hxc
              omega
          · have : x < c := hlt x (mem_allClaims.mpr ⟨v, by simp [hvpost], hxv⟩)
            omega
      · rw [allClaims_split]
        have hold := hnodup
        rw [allClaims_split] at hold
        have hcnot : c ∉ (pre.map Worker.claims).flatten ++
            (w.claims ++ (post.map Worker.claims).flatten) := by
          intro hc
          have : c < c := by
            apply hlt c
            rw [allClaims_split]
            exact hc
          omega
        simpa [claimStep] using nodup_insert_middle hold hcnot
      · intro v hv
        rcases List.mem_append.mp hv with hvpre | hvrest
        · exact hworkers v (by simp [hvpre])
        · rcases List.mem_cons.mp hvrest with hveq | hvpost
          · rw [hveq]
            constructor
            · rw [claimStep]
              simp only [List.filter_append, List.length_append, hwfilter]
              by_cases hGc : G ≤ c
              · simp [hGc]
              · simp [hGc]
            · intro hst
              rw [claimStep] at hst
              simp only at hst
              refine ⟨c, ?_, of_decide_eq_true hst⟩
              rw [claimStep]
              simp only
              exact List.getLast?_concat _
          · exact hworkers v (by simp [hvpost])

/-- Every reachable run state satisfies the claiming-loop invariant. -/
theorem runInv_reach (G W : Nat) {s : RunState}
    (h : Relation.ReflTransGen (WorkerStep G) (initRun W) s) : runInv G W s := by
  induction h with
  | refl => exact runInv_init G W
  | tail _ hstep ih => exact runInv_step G W hstep ih

/-- Counting one kept claim per worker through the flattened claim list. -/
theorem length_filter_flatten (p : Nat → Bool) :
    ∀ ws : List Worker, (∀ w ∈ ws, (w.claims.filter p).length = 1) →
      (((ws.map Worker.claims).flatten.filter p).length = ws.length) := by
  intro ws
  induction ws with
  | nil => intro _; rfl
  | cons w rest ih =>
      intro h
      have hw := h w (List.mem_cons_self _ _)
      have hrest := ih (fun v hv => h v (List.mem_cons_of_mem _ hv))
      simp only [List.map_cons, List.flatten_cons, List.filter_append,
        List.length_append, hw, hrest, List.length_cons]
      omega

/-- C5: in every interleaved run of the claiming loop with target `G` and
`W` workers, once all workers have stopped claiming the distinct claimed
indices at or above `G` number exactly `W`: the filtered claim list has
length `W` with no duplicates, every worker's final fetch-and-increment
returned an index at or above `G`, and no worker claimed more than one
such index. -/
theorem c5_work_counter_drain (G W : Nat) (s : RunState)
    (hreach : Relation.ReflTransGen (WorkerStep G) (initRun W) s)
    (hstopped : ∀ w ∈ s.workers, w.stopped = true) :
    ((allClaims s).filter (fun c => decide (G ≤ c))).length = W ∧
    ((allClaims s).filter (fun c => decide (G ≤ c))).Nodup ∧
    (∀ w ∈ s.workers, ∃ c, w.claims.getLast? = some c ∧ G ≤ c) ∧
    (∀ w ∈ s.workers, (w.claims.filter (fun c => decide (G ≤ c))).length ≤ 1) := by
  obtain ⟨hlen, hlt, hnodup, hworkers⟩ := runInv_reach G W hreach
  have hone : ∀ w ∈ s.workers,
      (w.claims.filter (fun c => decide (G ≤ c))).length = 1 := by
    intro w hw
    have := (hworkers w hw).1
    rw [hstopped w hw] at this
    simpa using this
  refine ⟨?_, ?_, ?_, ?_⟩
  · rcases s with ⟨cnt, ws⟩
    have := length_filter_flatten (fun c => decide (G ≤ c)) ws hone
    simpa [allClaims, hlen] using this.trans hlen
  · exact hnodup.filter _
  · intro w hw
    exact (hworkers w hw).2 (hstopped w hw)
  · intro w hw
    rw [hone w hw]

theorem c5_work_counter_drain_witness :
    ((allClaims ⟨2, [⟨[0, 1], true⟩]⟩).filter (fun c => decide (1 ≤ c))).length = 1 ∧
    ((allClaims ⟨2, [⟨[0, 1], true⟩]⟩).filter (fun c => decide (1 ≤ c))).Nodup ∧
    (∀ w ∈ (⟨2, [⟨[0, 1], true⟩]⟩ : RunState).workers,
      ∃ c, w.claims.getLast? = some c ∧ 1 ≤ c) ∧
    (∀ w ∈ (⟨2, [⟨[0, 1], true⟩]⟩ : RunState).workers,
      (w.claims.filter (fun c => decide (1 ≤ c))).length ≤ 1) :=
  c5_work_counter_drain 1 1 ⟨2, [⟨[0, 1], true⟩]⟩
    (Relation.ReflTransGen.tail
      (Relation.ReflTransGen.single (WorkerStep.claim 0 [] [] ⟨[], false⟩ rfl))
      (WorkerStep.claim 1 [] [] ⟨[0], false⟩ rfl))
    (by decide)

end RvS
